import Mathlib

/-!
Verification of the transfer engine of `pynix` (`src/pynix/binary_cache/client.py`)
against its natural-language specification.

Store paths are modelled as natural numbers; the reference graph is a function
`refs : Nat → List Nat` giving each path's direct references, as returned by
`get_references` (per the source's server branch and the spec of the reference
cache, the returned list excludes the path itself; we do not rely on that
except where noted).  Stateful methods become explicit state-passing functions;
recursive methods that have no termination guarantee in the source are
embedded with an explicit fuel parameter, so that non-termination of the
source is reflected as `none`/incompletion for every fuel value.
-/

namespace Pynix

/-- Requests the client can put on the wire, one constructor per route used by
the claims.  `queryPathsBulk` is the `GET /query-paths` bulk presence route,
`narinfoProbe p` the per-path `GET /{hash}.narinfo` probe, `initBatchFetch`
the `POST /init-batch-fetch` route, `batchFetch` the `GET /batch-fetch/{token}`
round, `computeFetchOrder` the `GET /compute-fetch-order` route, `uploadNar p`
the `POST /upload-nar/...` route and `importPath p` the `POST /import-path`
of path `p`. -/
inductive Req where
  | queryPathsBulk (paths : List Nat)
  | narinfoProbe (p : Nat)
  | initBatchFetch (paths : List Nat)
  | batchFetch
  | computeFetchOrder
  | uploadNar (p : Nat)
  | importPath (p : Nat)
deriving DecidableEq, Repr

/-! ## Closure computation (`query_path_closures`, lines 283-317)

The inner `recur` of `query_path_closures`:

    def recur(_paths):
        for path in _paths:
            if path not in full_path_set:
                counts[0] += 1
                recur(self.get_references(path))
                full_path_set.add(path)

Note that `full_path_set.add(path)` runs only AFTER the recursive call
returns: the path is marked visited on completion, not on entry.  The set is
threaded through explicitly below; `p :: s2` is the `add` performed after the
recursion into `refs p` produced `s2`. -/
/-- `recurClosure refs fuel _paths full_path_set` is the `recur` loop of
`query_path_closures`, with fuel charged for each loop step that inspects a
path; `none` means the computation did not finish within `fuel` steps. -/
def recurClosure (refs : Nat → List Nat) : Nat → List Nat → List Nat → Option (List Nat)
  | _, [], s => some s
  | 0, _ :: _, _ => none
  | fuel + 1, p :: rest, s =>
      if p ∈ s then recurClosure refs fuel rest s
      else
        match recurClosure refs fuel (refs p) s with
        | none => none
        | some s2 => recurClosure refs fuel rest (p :: s2)

/-! ## Local fetch order (`_compute_fetch_order`, lines 646-659)

The local fallback of `_compute_fetch_order`:

    order = []
    order_set = set()
    def _order(path):
        if path not in order_set:
            for ref in self.get_references(path, query_server=True):
                _order(ref)
            order.append(path)
            order_set.add(path)
    for path in paths:
        _order(path)
    return order

Again the path is appended and marked only after all its references were
processed.  `order` and `order_set` always hold the same elements, so a single
list `acc` plays both roles below; `acc ++ [p]` is the append-then-mark. -/
/-- `orderFuel refs fuel paths acc` is the `_order` loop of the local fallback
of `_compute_fetch_order`, run over the work list `paths` with accumulated
order `acc`; `none` means the recursion did not finish within `fuel` steps. -/
def orderFuel (refs : Nat → List Nat) : Nat → List Nat → List Nat → Option (List Nat)
  | _, [], acc => some acc
  | 0, _ :: _, _ => none
  | fuel + 1, p :: rest, acc =>
      if p ∈ acc then orderFuel refs fuel rest acc
      else
        match orderFuel refs fuel (refs p) acc with
        | none => none
        | some acc2 => orderFuel refs fuel rest (acc2 ++ [p])

/-- The adversarial cyclic reference graph of claim C1: two store paths `0`
and `1` referencing each other (no self-edges). -/
def cycleRefs : Nat → List Nat
  | 0 => [1]
  | 1 => [0]
  | _ => []

/-! ## Reachability in the reference graph -/
/-- `Reaches refs p q` holds when `q` belongs to the transitive references of
`p`: there is a chain of one or more direct-reference edges from `p` to `q`. -/
inductive Reaches (refs : Nat → List Nat) : Nat → Nat → Prop where
  | single {p r : Nat} : r ∈ refs p → Reaches refs p r
  | step {p r q : Nat} : r ∈ refs p → Reaches refs r q → Reaches refs p q

/-- A reference graph is acyclic when no path reaches itself through one or
more edges. -/
def Acyclic (refs : Nat → List Nat) : Prop := ∀ x, ¬ Reaches refs x x

/-- A list of paths is closed under direct references. -/
def ClosedL (refs : Nat → List Nat) (acc : List Nat) : Prop :=
  ∀ p ∈ acc, ∀ r ∈ refs p, r ∈ acc

/-- A list is dependency-first when no earlier element reaches a later one
through the reference graph. -/
def DepFirst (refs : Nat → List Nat) (l : List Nat) : Prop :=
  l.Pairwise (fun a b => ¬ Reaches refs a b)

/-- Acyclic witness graph for C3: a single edge `0 → 1`. -/
def refsW : Nat → List Nat
  | 0 => [1]
  | _ => []

/-! ## Push ordering (`send_object`, lines 438-501)

    def send_object(self, path, remaining_objects=None, is_nar=False):
        if path in self._objects_on_server:
            return
        for ref in self.get_references(path):
            self.send_object(ref, remaining_objects=remaining_objects)
        ...
        response = self._request(url, method="post", data=data, headers=headers)
        self._objects_on_server.add(path)

The run below processes a work list of paths (as `send_objects`' loop does,
one `send_object` call per element).  Each `/import-path` POST is logged
together with a snapshot of `objects_on_server` at the moment it was issued;
the path itself is added to `objects_on_server` right after its POST, as in
the source.  NAR uploads (`send_nar`) touch only NAR directory entries and the
`/upload-nar` route; they are modelled separately (see `runSendNars`). -/
/-- State of a push run: the `objects_on_server` set and the log of
`/import-path` POSTs, each with a snapshot of `objects_on_server` taken when
the POST was issued. -/
structure PushState where
  onServer : List Nat
  posts : List (Nat × List Nat)
deriving DecidableEq, Repr

/-- Fueled run of `send_object` over a work list; the `Bool` reports whether
the run finished within the fuel budget. -/
def send_object (refs : Nat → List Nat) : Nat → List Nat → PushState → PushState × Bool
  | _, [], st => (st, true)
  | 0, _ :: _, st => (st, false)
  | fuel + 1, p :: rest, st =>
      if p ∈ st.onServer then send_object refs fuel rest st
      else
        match send_object refs fuel (refs p) st with
        | (st2, false) => (st2, false)
        | (st2, true) =>
            send_object refs fuel rest
              ⟨p :: st2.onServer, st2.posts ++ [(p, st2.onServer)]⟩

/-- Every logged POST carries a snapshot that already contains all direct
references of the posted path. -/
def PostsOK (refs : Nat → List Nat) (st : PushState) : Prop :=
  ∀ pr ∈ st.posts, ∀ r ∈ refs pr.1, r ∈ pr.2

/-- Reference graph for the C2 witness: `1 → 2`. -/
def refsC2 : Nat → List Nat
  | 1 => [2]
  | _ => []

/-! ## Retry loop (`_request`, lines 713-736)

    attempt = 1
    while True:
        try:
            response = getattr(self._connect(), method)(url, **kwargs)
            response.raise_for_status()
            return response
        except requests.HTTPError as err:
            if err.response.status_code < 500 or \
                   (self._max_attempts is not None and
                    attempt >= self._max_attempts):
                raise
            else:
                attempt += 1
        except requests.ConnectionError as cerr:
            self._session = None

Each loop iteration performs one request attempt; its result is drawn from a
prescribed list of outcomes (the server/network behaviour), one per attempt.
Note the `ConnectionError` arm neither raises nor increments `attempt`. -/
/-- Outcome of one request attempt: a 2xx success, an HTTP error response
with the given status, or a transport (connection) error. -/
inductive Outcome where
  | ok
  | httpErr (status : Nat)
  | connErr
deriving DecidableEq, Repr

/-- Result of `_request`: returned a response, raised an `HTTPError`, or was
still looping when the prescribed outcome list ran out. -/
inductive ReqResult where
  | success
  | raised (status : Nat)
  | pending
deriving DecidableEq, Repr

/-- The `self._max_attempts is not None and attempt >= self._max_attempts`
test of `_request`. -/
def maxReached : Option Nat → Nat → Bool
  | none, _ => false
  | some m, attempt => m ≤ attempt

/-- `requestLoop maxA attempt outs` runs the `while True` loop of `_request`
starting at counter `attempt` against the outcome list `outs`, returning the
result and the total number of request attempts performed. -/
def requestLoop (maxA : Option Nat) : Nat → List Outcome → ReqResult × Nat
  | _, [] => (.pending, 0)
  | attempt, o :: rest =>
      match o with
      | .ok => (.success, 1)
      | .httpErr s =>
          if s < 500 ∨ maxReached maxA attempt = true then (.raised s, 1)
          else
            ((requestLoop maxA (attempt + 1) rest).1,
             (requestLoop maxA (attempt + 1) rest).2 + 1)
      | .connErr =>
          ((requestLoop maxA attempt rest).1,
           (requestLoop maxA attempt rest).2 + 1)

/-- Whether an attempt outcome is an HTTP response with status at least 500. -/
def is5xx : Outcome → Bool
  | .httpErr s => 500 ≤ s
  | _ => false

/-! ## Connection handshake (`_connect`, lines 335-436)

The 401 branch of `_connect`:

    elif resp.status_code == 401:
        if attempts > 0:
            time.sleep(2)
            return self._connect(first_time=False, attempts=attempts-1)
        elif sys.stdin.isatty():
            ... prompt for username, clear password ...
            return self._connect(first_time=False)
        else:
            raise CouldNotConnect(...)

The post-prompt recursive call passes no `attempts` argument, so the budget
resets to the default 5.  `connect401 tty fuel attempts` runs `_connect`
against a server that always answers 401; the result is `some false` when
`CouldNotConnect` is raised, `some true` when a session is established (never,
here), `none` when the recursion exceeds `fuel` calls; the second component
counts interactive prompts. -/
/-- `_connect` against an always-401 server, fuel-indexed, counting prompts. -/
def connect401 (tty : Bool) : Nat → Nat → Option Bool × Nat
  | 0, _ => (none, 0)
  | fuel + 1, attempts =>
      if 0 < attempts then connect401 tty fuel (attempts - 1)
      else if tty then
        ((connect401 tty fuel 5).1, (connect401 tty fuel 5).2 + 1)
      else (some false, 0)

/-! ## Presence queries (`query_paths`, lines 226-260; `query_path_individually`,
lines 262-281)

`query_paths` issues one bulk `GET /query-paths`; on a 404 it falls back to
per-path narinfo probes through the query pool, *inside the same call* — it
neither consults nor sets any client flag.  The server is modelled by
`supportsBulk` (does the bulk route answer, or 404?) and `present` (which
paths it has); `list(set(paths))` is modelled by `List.dedup`.  The function
returns the requests issued and the resulting path-to-presence mapping. -/
/-- The `query_paths` call: requests issued and answers obtained. -/
def query_paths (supportsBulk : Bool) (present : Nat → Bool) (paths : List Nat) :
    List Req × List (Nat × Bool) :=
  if (paths.dedup).isEmpty then ([], [])
  else if supportsBulk then
    ([Req.queryPathsBulk paths.dedup], (paths.dedup).map (fun p => (p, present p)))
  else
    (Req.queryPathsBulk paths.dedup :: (paths.dedup).map Req.narinfoProbe,
     (paths.dedup).map (fun p => (p, present p)))

/-- `query_path_individually`: the probe goes through `self._connect().get`
(no `raise_for_status`, no retry loop) and the result is
`resp.status_code == 200`. -/
def query_path_individually (status : Nat) : Bool := status == 200

/-! ## Pull entry point (`_fetch_unordered_paths`, lines 661-682;
`_fetch_batch`, lines 738-764; `send_nar`, lines 503-540)

`_fetch_unordered_paths` with `_use_batch_fetching` POSTs `/init-batch-fetch`
(`_fetch_batch` has no emptiness check); an unsupported response raises
`OperationNotSupported`, upon which the flag is cleared and the call re-enters
itself in per-path mode, which opens with the `GET /compute-fetch-order`
probe of `_compute_fetch_order`.  The `/batch-fetch/{token}` rounds of a
successful batch are collapsed into a single `batchFetch` event and the
per-path narinfo/NAR GETs of the fallback are elided — the claims concern
only the bulk routes. -/
/-- One `_fetch_unordered_paths` call: requests issued and the
`_use_batch_fetching` flag on exit. -/
def fetchUnorderedCall (supportsBatch useBatch : Bool) (paths : List Nat) :
    List Req × Bool :=
  if useBatch then
    if supportsBatch then ([Req.initBatchFetch paths, Req.batchFetch], true)
    else ([Req.initBatchFetch paths, Req.computeFetchOrder], false)
  else ([Req.computeFetchOrder], false)

/-- A run of successive `_fetch_unordered_paths` calls, threading the
`_use_batch_fetching` flag from call to call. -/
def runFetchCalls (supportsBatch : Bool) : Bool → List (List Nat) → List Req
  | _, [] => []
  | flag, ps :: rest =>
      (fetchUnorderedCall supportsBatch flag ps).1 ++
        runFetchCalls supportsBatch (fetchUnorderedCall supportsBatch flag ps).2 rest

/-- Recognizer for `/init-batch-fetch` requests. -/
def isInitBatch : Req → Bool
  | .initBatchFetch _ => true
  | _ => false

/-- One NAR-upload step of the send loop: `send_object` calls `send_nar(path)`
when `_send_nars` is set; `send_nar` POSTs `/upload-nar/...` and a 404
(`supportsNar = false`) clears `_send_nars` for the rest of the run.  (The
`nar_dir in self._objects_on_server` skip and the subprocess work around the
upload are orthogonal to the bulk-route claim and elided.) -/
def sendNarStep (supportsNar sendNars : Bool) (p : Nat) : List Req × Bool :=
  if sendNars then ([Req.uploadNar p], supportsNar) else ([], false)

/-- The NAR uploads of a whole send loop, threading `_send_nars`. -/
def runSendNars (supportsNar : Bool) : Bool → List Nat → List Req
  | _, [] => []
  | flag, p :: rest =>
      (sendNarStep supportsNar flag p).1 ++
        runSendNars supportsNar (sendNarStep supportsNar flag p).2 rest

/-- Recognizer for `/upload-nar` requests. -/
def isUploadNar : Req → Bool
  | .uploadNar _ => true
  | _ => false

/-! ## Push pipeline (`query_path_closures`, lines 283-333; `send_objects`,
lines 542-591) -/
/-- `SHOW_PATHS_LIMIT` (line 64, default of the environment variable). -/
def SHOW_PATHS_LIMIT : Nat := 25

/-- `query_path_closures`: computes the full closure of `paths` with `recur`
(`recurClosure`), asks `query_paths` which closure members the server has,
and splits the answers into `to_send` (reported absent) and the additions to
`objects_on_server` (reported present).  Returns `(requests, to_send,
objects_on_server)`, or `none` when the closure DFS exceeds `fuel`. -/
def query_path_closures (supportsBulk : Bool) (present : Nat → Bool)
    (refs : Nat → List Nat) (fuel : Nat) (paths : List Nat) :
    Option (List Req × List Nat × List Nat) :=
  match recurClosure refs fuel paths [] with
  | none => none
  | some fullSet =>
      some ((query_paths supportsBulk present fullSet).1,
        ((query_paths supportsBulk present fullSet).2.filter
            (fun pb => !pb.2)).map (fun pb => pb.1),
        ((query_paths supportsBulk present fullSet).2.filter
            (fun pb => pb.2)).map (fun pb => pb.1))

/-- `send_objects`: steps 1-2 are `query_path_closures`; step 3 issues the
NAR presence query when `_send_nars` is set and paths remain (note: this
happens regardless of `dry_run`); then either the real send loop
(`send_object` over the remaining paths, whose NAR uploads are traced by
`runSendNars`) or, under `dry_run`, a printout of the would-be-sent basenames
when they number at most `SHOW_PATHS_LIMIT` (the source prints nothing when
there are more).  `basename` is the identity here since paths are atoms;
`NarInfo.get_nar_dir` is the abstract `narDir`.  Returns the request trace
and the printed paths, or `none` when a traversal exceeds `fuel`. -/
def send_objects (supportsBulk : Bool) (present narPresent : Nat → Bool)
    (refs : Nat → List Nat) (narDir : Nat → Nat) (dryRun sendNars : Bool)
    (fuel : Nat) (paths : List Nat) : Option (List Req × List Nat) :=
  match query_path_closures supportsBulk present refs fuel paths with
  | none => none
  | some (reqs1, toSend, onServer0) =>
      let narStep :=
        if sendNars && !toSend.isEmpty then
          (query_paths supportsBulk narPresent (toSend.map narDir)).1
        else []
      if dryRun then
        some (reqs1 ++ narStep,
          if toSend.length ≤ SHOW_PATHS_LIMIT then toSend else [])
      else
        match send_object refs fuel toSend ⟨onServer0, []⟩ with
        | (st, true) =>
            some (reqs1 ++ narStep ++ st.posts.map (fun pr => Req.importPath pr.1), [])
        | (_, false) => none

/-! ## Narinfo retrieval (`get_narinfo`, lines 160-196)

    if path not in self._narinfo_cache:
        write_to_disk = True
        cache_path = join(NIX_NARINFO_CACHE, self._endpoint_server, basename(path))
        if isfile(cache_path):
            try:
                with open(cache_path) as f:
                    narinfo = NarInfo.from_dict(json.load(f))
                write_to_disk = False
            except json.decoder.JSONDecodeError:
                os.unlink(cache_path)
                return self.get_narinfo(path)
        else:
            ... request from server ...
        self._update_narinfo_cache(narinfo, write_to_disk)
    return self._narinfo_cache[path]

The recursive call after `os.unlink` finds no cache file and takes the server
branch; that tail is `get_narinfo_fetch` below, used by both the
`invalidJson` (after deletion) and `missing` branches.  Narinfo records are
abstracted to the `Nat` they describe. -/
/-- On-disk narinfo cache entry for a path. -/
inductive DiskEntry where
  | missing
  | invalidJson
  | valid (n : Nat)
deriving DecidableEq, Repr

/-- The cache-miss tail of `get_narinfo`: request the narinfo from the server
(`none` models `_request` raising) and write it through to the disk cache. -/
def get_narinfo_fetch (server : Option Nat) : Option (Nat × DiskEntry) :=
  match server with
  | some n => some (n, DiskEntry.valid n)
  | none => none

/-- `get_narinfo` for one path: `mem` is the in-memory cache entry, `disk` the
on-disk one, `server` what `_request` would return.  Result: the narinfo and
the disk entry afterwards, or `none` when the narinfo is unobtainable (the
source raises).  A valid disk entry is loaded with `write_to_disk = False`;
an invalid one is deleted and the call retries, landing in the server branch;
a missing one asks the server directly. -/
def get_narinfo (mem : Option Nat) (disk : DiskEntry) (server : Option Nat) :
    Option (Nat × DiskEntry) :=
  match mem with
  | some n => some (n, disk)
  | none =>
      match disk with
      | DiskEntry.valid n => some (n, DiskEntry.valid n)
      | DiskEntry.invalidJson => get_narinfo_fetch server
      | DiskEntry.missing => get_narinfo_fetch server

/-! ## Theorems -/

theorem recurClosure_cycle_none :
    ∀ fuel, recurClosure cycleRefs fuel [0] [] = none ∧
      recurClosure cycleRefs fuel [1] [] = none := by
  intro fuel
  induction fuel with
  | zero => exact ⟨rfl, rfl⟩
  | succ f ih =>
    constructor
    · show (if (0:Nat) ∈ ([] : List Nat) then _ else _) = none
      rw [if_neg (by simp)]
      show (match recurClosure cycleRefs f [1] [] with
            | none => none
            | some s2 => recurClosure cycleRefs f [] (0 :: s2)) = none
      rw [ih.2]
    · show (if (1:Nat) ∈ ([] : List Nat) then _ else _) = none
      rw [if_neg (by simp)]
      show (match recurClosure cycleRefs f [0] [] with
            | none => none
            | some s2 => recurClosure cycleRefs f [] (1 :: s2)) = none
      rw [ih.1]

theorem orderFuel_cycle_none :
    ∀ fuel, orderFuel cycleRefs fuel [0] [] = none ∧
      orderFuel cycleRefs fuel [1] [] = none := by
  intro fuel
  induction fuel with
  | zero => exact ⟨rfl, rfl⟩
  | succ f ih =>
    constructor
    · show (if (0:Nat) ∈ ([] : List Nat) then _ else _) = none
      rw [if_neg (by simp)]
      show (match orderFuel cycleRefs f [1] [] with
            | none => none
            | some s2 => orderFuel cycleRefs f [] (s2 ++ [0])) = none
      rw [ih.2]
    · show (if (1:Nat) ∈ ([] : List Nat) then _ else _) = none
      rw [if_neg (by simp)]
      show (match orderFuel cycleRefs f [0] [] with
            | none => none
            | some s2 => orderFuel cycleRefs f [] (s2 ++ [1])) = none
      rw [ih.1]

theorem reaches_closed (refs : Nat → List Nat) (S : List Nat) (hS : ClosedL refs S) :
    ∀ p q, Reaches refs p q → p ∈ S → q ∈ S := by
  intro p q h
  induction h with
  | single hr => intro hp; exact hS _ hp _ hr
  | step hr _ ih => intro hp; exact ih (hS _ hp _ hr)

/-! ## Properties of the local fetch-order traversal -/
theorem orderFuel_extends (refs : Nat → List Nat) :
    ∀ f l acc out, orderFuel refs f l acc = some out → ∃ t, out = acc ++ t := by
  intro f
  induction f with
  | zero =>
    intro l acc out h
    cases l with
    | nil => exact ⟨[], by simpa [orderFuel] using congrArg (fun o => o.getD []) h.symm⟩
    | cons p rest => simp [orderFuel] at h
  | succ f ih =>
    intro l acc out h
    cases l with
    | nil => exact ⟨[], by simpa [orderFuel] using congrArg (fun o => o.getD []) h.symm⟩
    | cons p rest =>
      simp only [orderFuel] at h
      split at h
      · exact ih _ _ _ h
      · split at h
        · exact absurd h (by simp)
        · rename_i acc2 heq
          obtain ⟨t1, rfl⟩ := ih _ _ _ heq
          obtain ⟨t2, rfl⟩ := ih _ _ _ h
          exact ⟨t1 ++ [p] ++ t2, by simp⟩

theorem orderFuel_mem_mono (refs : Nat → List Nat) {f : Nat} {l acc out : List Nat}
    (h : orderFuel refs f l acc = some out) : ∀ x ∈ acc, x ∈ out := by
  obtain ⟨t, rfl⟩ := orderFuel_extends refs f l acc out h
  intro x hx
  exact List.mem_append.mpr (Or.inl hx)

theorem orderFuel_covers (refs : Nat → List Nat) :
    ∀ f l acc out, orderFuel refs f l acc = some out → ∀ p ∈ l, p ∈ out := by
  intro f
  induction f with
  | zero =>
    intro l acc out h p hp
    cases l with
    | nil => cases hp
    | cons q rest => simp [orderFuel] at h
  | succ f ih =>
    intro l acc out h p hp
    cases l with
    | nil => cases hp
    | cons q rest =>
      simp only [orderFuel] at h
      rcases List.mem_cons.mp hp with rfl | hrest
      · split at h
        · exact orderFuel_mem_mono refs h p (by assumption)
        · split at h
          · exact absurd h (by simp)
          · rename_i acc2 heq
            exact orderFuel_mem_mono refs h p (by simp)
      · split at h
        · exact ih _ _ _ h p hrest
        · split at h
          · exact absurd h (by simp)
          · exact ih _ _ _ h p hrest

theorem orderFuel_provenance (refs : Nat → List Nat) :
    ∀ f l acc out, orderFuel refs f l acc = some out →
      ∀ q ∈ out, q ∈ acc ∨ ∃ x ∈ l, x = q ∨ Reaches refs x q := by
  intro f
  induction f with
  | zero =>
    intro l acc out h q hq
    cases l with
    | nil =>
      cases h
      exact Or.inl hq
    | cons p rest => simp [orderFuel] at h
  | succ f ih =>
    intro l acc out h q hq
    cases l with
    | nil =>
      cases h
      exact Or.inl hq
    | cons p rest =>
      simp only [orderFuel] at h
      split at h
      · rcases ih _ _ _ h q hq with hacc | ⟨x, hx, hxq⟩
        · exact Or.inl hacc
        · exact Or.inr ⟨x, List.mem_cons_of_mem _ hx, hxq⟩
      · split at h
        · exact absurd h (by simp)
        · rename_i acc2 heq
          rcases ih _ _ _ h q hq with hmem | ⟨x, hx, hxq⟩
          · rcases List.mem_append.mp hmem with hacc2 | hqp
            · rcases ih _ _ _ heq q hacc2 with hacc | ⟨r, hr, hrq⟩
              · exact Or.inl hacc
              · refine Or.inr ⟨p, List.mem_cons_self _ _, Or.inr ?_⟩
                rcases hrq with rfl | hre
                · exact Reaches.single hr
                · exact Reaches.step hr hre
            · have : q = p := by simpa using hqp
              exact Or.inr ⟨p, List.mem_cons_self _ _, Or.inl this.symm⟩
          · exact Or.inr ⟨x, List.mem_cons_of_mem _ hx, hxq⟩

theorem orderFuel_invariant (refs : Nat → List Nat) (hac : Acyclic refs) :
    ∀ f l acc out, ClosedL refs acc → DepFirst refs acc →
      orderFuel refs f l acc = some out → ClosedL refs out ∧ DepFirst refs out := by
  intro f
  induction f with
  | zero =>
    intro l acc out hcl hdf h
    cases l with
    | nil => cases h; exact ⟨hcl, hdf⟩
    | cons p rest => simp [orderFuel] at h
  | succ f ih =>
    intro l acc out hcl hdf h
    cases l with
    | nil => cases h; exact ⟨hcl, hdf⟩
    | cons p rest =>
      simp only [orderFuel] at h
      split at h
      · exact ih _ _ _ hcl hdf h
      · rename_i hnp
        split at h
        · exact absurd h (by simp)
        · rename_i acc2 heq
          obtain ⟨hc2, hd2⟩ := ih _ _ _ hcl hdf heq
          have hrefs : ∀ r ∈ refs p, r ∈ acc2 := orderFuel_covers refs f _ _ _ heq
          have hpnot : p ∉ acc2 := by
            intro hmem
            rcases orderFuel_provenance refs f _ _ _ heq p hmem with hacc | ⟨r, hr, hcase⟩
            · exact hnp hacc
            · rcases hcase with hrp | hre
              · exact hac p (Reaches.single (hrp ▸ hr))
              · exact hac p (Reaches.step hr hre)
          have hc3 : ClosedL refs (acc2 ++ [p]) := by
            intro x hx r hr
            rcases List.mem_append.mp hx with hx2 | hxp
            · exact List.mem_append.mpr (Or.inl (hc2 x hx2 r hr))
            · have : x = p := by simpa using hxp
              subst this
              exact List.mem_append.mpr (Or.inl (hrefs r hr))
          have hd3 : DepFirst refs (acc2 ++ [p]) := by
            rw [DepFirst, List.pairwise_append]
            refine ⟨hd2, List.pairwise_singleton _ _, ?_⟩
            intro a ha b hb
            have : b = p := by simpa using hb
            subst this
            intro hre
            exact hpnot (reaches_closed refs acc2 hc2 a b hre ha)
          exact ih _ _ _ hc3 hd3 h

/-- C3: on an acyclic reference graph, any list returned by the local fallback
of `_compute_fetch_order` is dependency-first: for positions `i < j`, the path
at `j` is not among the transitive references of the path at `i`. -/
theorem c3_fetch_order_dep_first (refs : Nat → List Nat) (hac : Acyclic refs)
    (fuel : Nat) (roots out : List Nat)
    (h : orderFuel refs fuel roots [] = some out) :
    ∀ i j (hi : i < out.length) (hj : j < out.length), i < j →
      ¬ Reaches refs (out.get ⟨i, hi⟩) (out.get ⟨j, hj⟩) := by
  have hinv := orderFuel_invariant refs hac fuel roots [] out
    (by intro p hp; cases hp) List.Pairwise.nil h
  have hpw := hinv.2
  rw [DepFirst, List.pairwise_iff_get] at hpw
  intro i j hi hj hij
  exact hpw ⟨i, hi⟩ ⟨j, hj⟩ hij

theorem refsW_edge {a b : Nat} (h : b ∈ refsW a) : a = 0 ∧ b = 1 := by
  match a with
  | 0 =>
    refine ⟨rfl, ?_⟩
    simpa [refsW] using h
  | n + 1 => simp [refsW] at h

theorem refsW_acyclic : Acyclic refsW := by
  have key : ∀ a b, Reaches refsW a b → a = 0 ∧ b = 1 := by
    intro a b h
    induction h with
    | single hr => exact refsW_edge hr
    | step hr _ ih =>
      obtain ⟨rfl, rfl⟩ := refsW_edge hr
      exact absurd ih.1 (by decide)
  intro x hx
  obtain ⟨rfl, h1⟩ := key x x hx
  exact absurd h1 (by decide)

theorem c3_fetch_order_witness :
    orderFuel refsW 4 [0] [] = some [1, 0] ∧
      ¬ Reaches refsW (([1, 0] : List Nat).get ⟨0, by decide⟩)
        (([1, 0] : List Nat).get ⟨1, by decide⟩) :=
  ⟨by decide,
   c3_fetch_order_dep_first refsW refsW_acyclic 4 [0] [1, 0] (by decide)
     0 1 (by decide) (by decide) (by decide)⟩

/-- C1: for the cyclic reference graph `0 ↔ 1`, neither the closure DFS of
`query_path_closures` nor the local fallback of `_compute_fetch_order`
terminates, whatever the recursion budget: the code marks a path as visited
only after recursing into its references (not on entry), so the claimed
cycle tolerance fails and no output containing each node once is produced. -/
theorem c1_cycle_divergence :
    (∀ fuel, recurClosure cycleRefs fuel [0] [] = none) ∧
      (∀ fuel, orderFuel cycleRefs fuel [0] [] = none) :=
  ⟨fun fuel => (recurClosure_cycle_none fuel).1,
   fun fuel => (orderFuel_cycle_none fuel).1⟩

theorem send_object_mono (refs : Nat → List Nat) :
    ∀ f l st x, x ∈ st.onServer → x ∈ (send_object refs f l st).1.onServer := by
  intro f
  induction f with
  | zero =>
    intro l st x hx
    cases l with
    | nil => exact hx
    | cons p rest => exact hx
  | succ f ih =>
    intro l st x hx
    cases l with
    | nil => exact hx
    | cons p rest =>
      by_cases hp : p ∈ st.onServer
      · simp only [send_object, if_pos hp]
        exact ih rest st x hx
      · simp only [send_object, if_neg hp]
        split
        · rename_i st2 heq
          have hx2 := ih (refs p) st x hx
          rw [heq] at hx2
          exact hx2
        · rename_i st2 heq
          have hx2 := ih (refs p) st x hx
          rw [heq] at hx2
          exact ih rest _ x (List.mem_cons_of_mem _ hx2)

theorem send_object_complete (refs : Nat → List Nat) :
    ∀ f l st st2, send_object refs f l st = (st2, true) → ∀ p ∈ l, p ∈ st2.onServer := by
  intro f
  induction f with
  | zero =>
    intro l st st2 h p hp
    cases l with
    | nil => cases hp
    | cons q rest => exact absurd (congrArg Prod.snd h) (by simp [send_object])
  | succ f ih =>
    intro l st st2 h p hp
    cases l with
    | nil => cases hp
    | cons q rest =>
      by_cases hq : q ∈ st.onServer
      · simp only [send_object, if_pos hq] at h
        rcases List.mem_cons.mp hp with rfl | hrest
        · have := send_object_mono refs f rest st p hq
          rw [h] at this
          exact this
        · exact ih rest st st2 h p hrest
      · simp only [send_object, if_neg hq] at h
        split at h
        · exact absurd (congrArg Prod.snd h) (by simp)
        · rename_i st' heq
          rcases List.mem_cons.mp hp with rfl | hrest
          · have := send_object_mono refs f rest
              ⟨p :: st'.onServer, st'.posts ++ [(p, st'.onServer)]⟩ p
              (List.mem_cons_self _ _)
            rw [h] at this
            exact this
          · exact ih rest _ st2 h p hrest

theorem send_object_posts_ok (refs : Nat → List Nat) :
    ∀ f l st, PostsOK refs st → PostsOK refs (send_object refs f l st).1 := by
  intro f
  induction f with
  | zero =>
    intro l st hok
    cases l with
    | nil => exact hok
    | cons p rest => exact hok
  | succ f ih =>
    intro l st hok
    cases l with
    | nil => exact hok
    | cons p rest =>
      by_cases hp : p ∈ st.onServer
      · simp only [send_object, if_pos hp]
        exact ih rest st hok
      · simp only [send_object, if_neg hp]
        split
        · rename_i st2 heq
          have hok2 := ih (refs p) st hok
          rw [heq] at hok2
          exact hok2
        · rename_i st2 heq
          have hok2 := ih (refs p) st hok
          rw [heq] at hok2
          refine ih rest _ ?_
          intro pr hpr r hr
          rcases List.mem_append.mp hpr with hold | hnew
          · exact hok2 pr hold r hr
          · have : pr = (p, st2.onServer) := by simpa using hnew
            subst this
            exact send_object_complete refs f (refs p) st st2 heq r hr

/-- C2: during a push run, whenever the `/import-path` POST for a path `p` is
issued, every non-self reference of `p` is already in `objects_on_server` at
that moment (sent earlier in the same call, or already known present); the
proof in fact establishes this for every reference of `p`. -/
theorem c2_send_order_invariant (refs : Nat → List Nat) (fuel : Nat)
    (roots initial : List Nat) (p : Nat) (snap : List Nat)
    (hpost : (p, snap) ∈ (send_object refs fuel roots ⟨initial, []⟩).1.posts)
    (r : Nat) (hr : r ∈ refs p) (hne : r ≠ p) : r ∈ snap := by
  have h0 : PostsOK refs ⟨initial, []⟩ := by intro pr hpr; cases hpr
  exact send_object_posts_ok refs fuel roots ⟨initial, []⟩ h0 (p, snap) hpost r hr

theorem c2_send_order_witness : (2 : Nat) ∈ ([2] : List Nat) :=
  c2_send_order_invariant refsC2 5 [1] [] 1 [2] (by decide) 2 (by decide) (by decide)

theorem requestLoop_5xx_bound (m : Nat) :
    ∀ (outs : List Outcome) (attempt : Nat), attempt ≤ m →
      ((outs.take (requestLoop (some m) attempt outs).2).countP is5xx) + attempt ≤ m + 1 := by
  intro outs
  induction outs with
  | nil =>
    intro a ha
    simp only [requestLoop, List.take_nil, List.countP_nil]
    omega
  | cons o rest ih =>
    intro a ha
    cases o with
    | ok =>
      show List.countP is5xx (List.take 1 (Outcome.ok :: rest)) + a ≤ m + 1
      simp [is5xx]
      omega
    | httpErr s =>
      by_cases hcond : s < 500 ∨ maxReached (some m) a = true
      · have h2 : (requestLoop (some m) a (Outcome.httpErr s :: rest)).2 = 1 := by
          simp only [requestLoop, if_pos hcond]
        rw [h2]
        rcases hcond with hs | hmax
        · have h5 : is5xx (Outcome.httpErr s) = false := by
            simp only [is5xx, decide_eq_false_iff_not]
            omega
          simp [h5]
          omega
        · have ham : a = m := le_antisymm ha (by simpa [maxReached] using hmax)
          subst ham
          have hle : (List.take 1 (Outcome.httpErr s :: rest)).countP is5xx ≤ 1 := by
            have ht : List.take 1 (Outcome.httpErr s :: rest) = [Outcome.httpErr s] := rfl
            rw [ht]
            cases h5 : is5xx (Outcome.httpErr s) <;> simp [List.countP_cons, h5]
          omega
      · have hs : 500 ≤ s := by
          rcases Nat.lt_or_ge s 500 with h | h
          · exact absurd (Or.inl h) hcond
          · exact h
        have hmlt : a < m := by
          rcases Nat.lt_or_ge a m with h | h
          · exact h
          · refine absurd (Or.inr ?_) hcond
            simp only [maxReached, decide_eq_true_eq]
            omega
        have h2 : (requestLoop (some m) a (Outcome.httpErr s :: rest)).2
            = (requestLoop (some m) (a + 1) rest).2 + 1 := by
          simp only [requestLoop, if_neg hcond]
        rw [h2]
        have h5 : is5xx (Outcome.httpErr s) = true := by
          simp only [is5xx, decide_eq_true_eq]
          omega
        rw [List.take_succ_cons, List.countP_cons, h5]
        have hih := ih (a + 1) (by omega)
        simp only [if_pos]
        simp
        omega
    | connErr =>
      have h2 : (requestLoop (some m) a (Outcome.connErr :: rest)).2
          = (requestLoop (some m) a rest).2 + 1 := rfl
      rw [h2]
      have h5 : is5xx Outcome.connErr = false := rfl
      rw [List.take_succ_cons, List.countP_cons, h5]
      have hih := ih a ha
      simp
      omega

theorem requestLoop_none_no_5xx_raise :
    ∀ outs attempt s, (requestLoop none attempt outs).1 = .raised s → s < 500 := by
  intro outs
  induction outs with
  | nil => intro a s h; simp [requestLoop] at h
  | cons o rest ih =>
    intro a s h
    cases o with
    | ok => simp [requestLoop] at h
    | httpErr s' =>
      by_cases hs : s' < 500
      · simp only [requestLoop, if_pos (Or.inl hs)] at h
        cases h
        exact hs
      · have hcond : ¬ (s' < 500 ∨ maxReached none a = true) := by
          simp [maxReached, hs]
        simp only [requestLoop, if_neg hcond] at h
        exact ih (a + 1) s h
    | connErr =>
      simp only [requestLoop] at h
      exact ih a s h

/-- C5 counterexample: with `max_attempts = 3`, a run of four consecutive
connection errors followed by a success makes five request attempts in total
and returns successfully — the transport-error retries are neither counted
against `max_attempts` nor ever exhausted, contradicting the claim that at
most `max_attempts` attempts are made in total and that the error is raised
once attempts are exhausted. -/
theorem c5_counterexample :
    requestLoop (some 3) 1
        [Outcome.connErr, Outcome.connErr, Outcome.connErr, Outcome.connErr, Outcome.ok] =
      (ReqResult.success, 5) ∧ 3 < 5 :=
  ⟨by decide, by decide⟩

/-- C5 amended: `max_attempts` bounds only the attempts answered by HTTP
error responses: starting from attempt counter 1 with `max_attempts = m ≥ 1`,
at most `m` of the consumed outcomes are HTTP responses with status ≥ 500
(the counter increments only on such responses, and reaching `m` raises);
connection errors are retried without bound and without incrementing the
counter; and with `max_attempts` unset an HTTP error with status ≥ 500 is
never raised (retries on 5xx are unbounded). -/
theorem c5_retry_bounds (m : Nat) (hm : 1 ≤ m) (outs outs2 : List Outcome)
    (a s : Nat) (hr : (requestLoop none a outs2).1 = .raised s) :
    ((outs.take (requestLoop (some m) 1 outs).2).countP is5xx) ≤ m ∧ s < 500 :=
  ⟨by have := requestLoop_5xx_bound m outs 1 hm; omega,
   requestLoop_none_no_5xx_raise outs2 a s hr⟩

theorem c5_retry_bounds_witness :
    ((([Outcome.httpErr 503, Outcome.httpErr 503, Outcome.ok] : List Outcome).take
        (requestLoop (some 2) 1
          [Outcome.httpErr 503, Outcome.httpErr 503, Outcome.ok]).2).countP is5xx) ≤ 2
      ∧ 400 < 500 :=
  c5_retry_bounds 2 (by decide) [Outcome.httpErr 503, Outcome.httpErr 503, Outcome.ok]
    [Outcome.httpErr 400] 1 400 (by decide)

theorem connect401_step (tty : Bool) (f a : Nat) :
    connect401 tty (f + 1) (a + 1) = connect401 tty f a := by
  simp [connect401]

theorem connect401_burn (tty : Bool) : ∀ a f, connect401 tty (f + a) a = connect401 tty f 0 := by
  intro a
  induction a with
  | zero => intro f; rfl
  | succ a ih =>
    intro f
    have h : f + (a + 1) = (f + a) + 1 := by omega
    rw [h, connect401_step]
    exact ih f

theorem connect401_tty_run : ∀ k, connect401 true (6 * k) 5 = (none, k) := by
  intro k
  induction k with
  | zero => rfl
  | succ k ih =>
    have h6 : 6 * (k + 1) = (6 * k + 1) + 5 := by ring
    rw [h6, connect401_burn true 5 (6 * k + 1)]
    show connect401 true (6 * k + 1) 0 = (none, k + 1)
    simp only [connect401, Nat.lt_irrefl, if_false, if_true]
    rw [ih]

theorem connect401_nontty : ∀ a f, a < f → connect401 false f a = (some false, 0) := by
  intro a
  induction a with
  | zero =>
    intro f hf
    obtain ⟨f', rfl⟩ : ∃ f', f = f' + 1 := ⟨f - 1, by omega⟩
    simp [connect401]
  | succ a ih =>
    intro f hf
    obtain ⟨f', rfl⟩ : ∃ f', f = f' + 1 := ⟨f - 1, by omega⟩
    rw [connect401_step]
    exact ih f' (by omega)

/-- C6 counterexample: against a server that always answers 401 with stdin a
terminal, the number of prompt iterations of `_connect` is not bounded by any
fixed maximum — the post-prompt recursive call resets the retry budget to its
default of 5, so one prompt occurs every six calls, forever. -/
theorem c6_counterexample :
    ¬ ∃ B : Nat, ∀ k : Nat, (connect401 true (6 * k) 5).2 ≤ B := by
  rintro ⟨B, hB⟩
  have h := hB (B + 1)
  rw [connect401_tty_run (B + 1)] at h
  simp at h

/-- C6 amended: on 401 the client silently retries while the attempts budget
lasts; once exhausted, it prompts and retries only when stdin is a terminal
and otherwise raises `CouldNotConnect` (with zero prompts).  Each interactive
prompt resets the budget to 5, so against an always-401 server an interactive
run never terminates and performs one prompt per six calls — the number of
prompt iterations is not bounded. -/
theorem c6_connect_behavior (a f k : Nat) (h : a < f) :
    connect401 false f a = (some false, 0) ∧ connect401 true (6 * k) 5 = (none, k) :=
  ⟨connect401_nontty a f h, connect401_tty_run k⟩

theorem c6_connect_behavior_witness :
    connect401 false 6 5 = (some false, 0) ∧ connect401 true (6 * 1) 5 = (none, 1) :=
  c6_connect_behavior 5 6 1 (by decide)

/-- C10: `query_path_individually` reports a path as present exactly when the
`.narinfo` probe's status is 200; every other status — server errors such as
500 included — yields `false` rather than an exception (the probe bypasses
`_request` and never raises for status). -/
theorem c10_probe_200 (status : Nat) :
    query_path_individually status = true ↔ status = 200 := by
  simp [query_path_individually]

/-- C4 counterexample: two successive `query_paths` calls in one run against a
server whose bulk route 404s.  The first call's fallback sets no flag, so the
second call issues `GET /query-paths` again: the run's request trace holds two
bulk requests, where the claim allows at most the first. -/
theorem c4_counterexample :
    ((query_paths false (fun _ => false) [1]).1 ++
        (query_paths false (fun _ => false) [1]).1).count (Req.queryPathsBulk [1]) = 2 ∧
      Req.queryPathsBulk [1] ∈ (query_paths false (fun _ => false) [1]).1 :=
  ⟨by decide, by decide⟩

theorem runFetchCalls_flag_off (supportsBatch : Bool) :
    ∀ calls, (runFetchCalls supportsBatch false calls).countP isInitBatch = 0 := by
  intro calls
  induction calls with
  | nil => rfl
  | cons ps rest ih =>
    show (([Req.computeFetchOrder] : List Req) ++
        runFetchCalls supportsBatch false rest).countP isInitBatch = 0
    rw [List.countP_append, ih]
    rfl

theorem runFetchCalls_no_batch_bound :
    ∀ (calls : List (List Nat)) (flag : Bool),
      (runFetchCalls false flag calls).countP isInitBatch ≤ 1 := by
  intro calls flag
  cases flag with
  | false =>
    rw [runFetchCalls_flag_off false calls]
    omega
  | true =>
    cases calls with
    | nil => decide
    | cons ps rest =>
      show (([Req.initBatchFetch ps, Req.computeFetchOrder] : List Req) ++
          runFetchCalls false false rest).countP isInitBatch ≤ 1
      rw [List.countP_append, runFetchCalls_flag_off false rest]
      rw [List.countP_cons, List.countP_cons, List.countP_nil]
      rw [show isInitBatch (Req.initBatchFetch ps) = true from rfl]
      rw [show isInitBatch Req.computeFetchOrder = false from rfl]
      decide

theorem runSendNars_flag_off (supportsNar : Bool) :
    ∀ paths, runSendNars supportsNar false paths = [] := by
  intro paths
  induction paths with
  | nil => rfl
  | cons p rest ih =>
    show ([] : List Req) ++ runSendNars supportsNar false rest = []
    rw [ih]
    rfl

theorem runSendNars_no_upload_bound :
    ∀ (paths : List Nat) (flag : Bool),
      (runSendNars false flag paths).countP isUploadNar ≤ 1 := by
  intro paths flag
  cases flag with
  | false =>
    rw [runSendNars_flag_off false paths]
    decide
  | true =>
    cases paths with
    | nil => decide
    | cons p rest =>
      show (([Req.uploadNar p] : List Req) ++ runSendNars false false rest).countP isUploadNar ≤ 1
      rw [List.countP_append, runSendNars_flag_off false rest]
      rw [List.countP_cons, List.countP_nil]
      rw [show isUploadNar (Req.uploadNar p) = true from rfl]
      decide

/-- C4 amended: the claim holds for the `/init-batch-fetch` and `/upload-nar`
bulk routes, whose 404 fallback clears a run-wide flag (`_use_batch_fetching`
resp. `_send_nars`): against a server without the route, a whole run issues at
most one request to that route, however many calls or paths follow.  For
`/query-paths` it fails: the fallback is local to the call, and a later
`query_paths` call in the same run issues the bulk route again. -/
theorem c4_bulk_route_disabled (calls : List (List Nat)) (flag : Bool)
    (paths : List Nat) (flag2 : Bool) :
    (runFetchCalls false flag calls).countP isInitBatch ≤ 1 ∧
      (runSendNars false flag2 paths).countP isUploadNar ≤ 1 :=
  ⟨runFetchCalls_no_batch_bound calls flag, runSendNars_no_upload_bound paths flag2⟩

theorem query_paths_shape (sb : Bool) (present : Nat → Bool) (ps : List Nat) :
    ∀ r ∈ (query_paths sb present ps).1,
      (∃ qs, r = Req.queryPathsBulk qs) ∨ ∃ p, r = Req.narinfoProbe p := by
  intro r hr
  simp only [query_paths] at hr
  split at hr
  · cases hr
  · split at hr
    · rw [List.mem_singleton] at hr
      exact Or.inl ⟨_, hr⟩
    · rcases List.mem_cons.mp hr with h | hmap
      · exact Or.inl ⟨_, h⟩
      · rcases List.mem_map.mp hmap with ⟨p, _, rfl⟩
        exact Or.inr ⟨p, rfl⟩

/-- C7 counterexample: an empty fetch still performs network I/O.  With batch
fetching enabled, `_fetch_unordered_paths([])` POSTs `/init-batch-fetch` with
an empty path list (`_fetch_batch` has no emptiness check); with batch
fetching disabled, the per-path mode GETs `/compute-fetch-order`. -/
theorem c7_counterexample :
    Req.initBatchFetch [] ∈ (fetchUnorderedCall true true []).1 ∧
      Req.computeFetchOrder ∈ (fetchUnorderedCall true false []).1 :=
  ⟨by decide, by decide⟩

/-- C7 amended: empty input to `send_objects` and to `query_paths` performs no
network I/O, but an empty `_fetch_unordered_paths` does: it still POSTs
`/init-batch-fetch` in batch mode and GETs `/compute-fetch-order` in per-path
mode. -/
theorem query_paths_nil (sb : Bool) (present : Nat → Bool) :
    query_paths sb present [] = ([], []) := by
  simp [query_paths]

theorem recurClosure_nil (refs : Nat → List Nat) (fuel : Nat) (s : List Nat) :
    recurClosure refs fuel [] s = some s := by
  cases fuel <;> rfl

theorem send_object_nil (refs : Nat → List Nat) (fuel : Nat) (st : PushState) :
    send_object refs fuel [] st = (st, true) := by
  cases fuel <;> rfl

theorem c7_empty_input (supportsBulk : Bool) (present narPresent : Nat → Bool)
    (refs : Nat → List Nat) (narDir : Nat → Nat) (dryRun sendNars : Bool)
    (fuel : Nat) (supportsBatch : Bool) :
    (query_paths supportsBulk present []).1 = [] ∧
      send_objects supportsBulk present narPresent refs narDir dryRun sendNars fuel [] =
        some ([], []) ∧
      (fetchUnorderedCall supportsBatch true []).1 ≠ [] ∧
      (fetchUnorderedCall supportsBatch false []).1 ≠ [] := by
  have hq : query_path_closures supportsBulk present refs fuel [] = some ([], [], []) := by
    have h0 : recurClosure refs fuel [] [] = some [] := recurClosure_nil refs fuel []
    simp only [query_path_closures, h0, query_paths_nil]
    simp
  refine ⟨by rw [query_paths_nil], ?_, ?_, ?_⟩
  · simp only [send_objects, hq]
    cases dryRun <;> cases sendNars <;> simp [send_object_nil, SHOW_PATHS_LIMIT]
  · cases supportsBatch <;> decide
  · cases supportsBatch <;> decide

/-- C8 counterexample: with `dry_run` and `_send_nars` both set, path `1`
absent from the server and `refs 1 = []`, the dry run issues TWO requests:
the step-2 presence query on the closure and then the step-3 NAR presence
query — `send_objects` does not short-circuit after step 2, since the
`_send_nars` block is not guarded by `dry_run`. -/
theorem c8_counterexample :
    send_objects true (fun _ => false) (fun _ => false) (fun _ => []) (fun p => p + 100)
        true true 1 [1] =
      some ([Req.queryPathsBulk [1], Req.queryPathsBulk [101]], [1]) ∧
      (query_path_closures true (fun _ => false) (fun _ => []) 1 [1]).map
          (fun t => t.1) = some [Req.queryPathsBulk [1]] :=
  ⟨by decide, by decide⟩

/-- C8 amended: under `dry_run`, `send_objects` sends nothing: no
`/import-path` request is ever issued, and it prints the would-be-sent
basenames when they number at most `SHOW_PATHS_LIMIT` (at most
`SHOW_PATHS_LIMIT` lines, all of them paths from `to_send`); with NAR-sending
disabled it issues no request beyond the step-2 presence query, but with
NAR-sending enabled the step-3 NAR presence query is still issued. -/
theorem c8_dry_run (supportsBulk : Bool) (present narPresent : Nat → Bool)
    (refs : Nat → List Nat) (narDir : Nat → Nat) (sendNars : Bool) (fuel : Nat)
    (paths : List Nat) (reqs1 : List Req) (toSend onServer0 : List Nat)
    (reqs : List Req) (printed : List Nat)
    (h1 : query_path_closures supportsBulk present refs fuel paths =
      some (reqs1, toSend, onServer0))
    (h : send_objects supportsBulk present narPresent refs narDir true sendNars fuel paths =
      some (reqs, printed)) :
    (∀ p, Req.importPath p ∉ reqs) ∧ printed.length ≤ SHOW_PATHS_LIMIT ∧
      (∀ p ∈ printed, p ∈ toSend) ∧ (sendNars = false → reqs = reqs1) := by
  obtain ⟨fullSet, hfull, hr1⟩ :
      ∃ fullSet, recurClosure refs fuel paths [] = some fullSet ∧
        reqs1 = (query_paths supportsBulk present fullSet).1 := by
    simp only [query_path_closures] at h1
    split at h1
    · exact absurd h1 (by simp)
    · rename_i fullSet heq
      rw [Option.some.injEq] at h1
      exact ⟨fullSet, heq, (congrArg (fun t => t.1) h1).symm⟩
  simp only [send_objects] at h
  split at h
  · exact absurd h (by simp)
  · rename_i reqs1' toSend' onServer0' heq
    rw [h1, Option.some.injEq, Prod.mk.injEq, Prod.mk.injEq] at heq
    obtain ⟨e1, e2, e3⟩ := heq
    subst e1
    subst e2
    subst e3
    rw [if_true] at h
    rw [Option.some.injEq, Prod.mk.injEq] at h
    obtain ⟨hreq, hprint⟩ := h
    subst hreq
    subst hprint
    refine ⟨?_, ?_, ?_, ?_⟩
    · intro p hmem
      rcases List.mem_append.mp hmem with hm1 | hm2
      · rw [hr1] at hm1
        rcases query_paths_shape supportsBulk present fullSet _ hm1 with ⟨qs, hq⟩ | ⟨q, hq⟩ <;>
          exact Req.noConfusion hq
      · by_cases hb : (sendNars && !toSend.isEmpty) = true
        · rw [if_pos hb] at hm2
          rcases query_paths_shape supportsBulk narPresent (toSend.map narDir) _ hm2 with
            ⟨qs, hq⟩ | ⟨q, hq⟩ <;> exact Req.noConfusion hq
        · rw [if_neg hb] at hm2
          cases hm2
    · by_cases hlen : toSend.length ≤ SHOW_PATHS_LIMIT
      · rw [if_pos hlen]
        exact hlen
      · rw [if_neg hlen]
        exact Nat.zero_le _
    · intro p hp
      by_cases hlen : toSend.length ≤ SHOW_PATHS_LIMIT
      · rw [if_pos hlen] at hp
        exact hp
      · rw [if_neg hlen] at hp
        cases hp
    · intro hsn
      subst hsn
      simp

theorem c8_dry_run_witness :
    (∀ p, Req.importPath p ∉ ([Req.queryPathsBulk [1], Req.queryPathsBulk [101]] : List Req)) ∧
      ([1] : List Nat).length ≤ SHOW_PATHS_LIMIT ∧
      (∀ p ∈ ([1] : List Nat), p ∈ ([1] : List Nat)) ∧
      (true = false →
        ([Req.queryPathsBulk [1], Req.queryPathsBulk [101]] : List Req) =
          [Req.queryPathsBulk [1]]) :=
  c8_dry_run true (fun _ => false) (fun _ => false) (fun _ => []) (fun p => p + 100)
    true 1 [1] [Req.queryPathsBulk [1]] [1] []
    [Req.queryPathsBulk [1], Req.queryPathsBulk [101]] [1] (by decide) (by decide)

/-- C9: when the on-disk cache entry holds invalid JSON and the path's
narinfo is obtainable from the server, `get_narinfo` deletes the bad entry,
re-obtains the narinfo and returns it — rewriting a valid cache entry —
instead of raising. -/
theorem c9_invalid_cache_recovery (n : Nat) :
    get_narinfo none DiskEntry.invalidJson (some n) = some (n, DiskEntry.valid n) := rfl

end Pynix
